import Mathlib

/-
Verification of the rsalloc fixed-arena allocator library.

Each allocator of the library is shallowly embedded as a pure Lean function
over an explicit state.  Machine addresses are modelled as `Nat`, with the
unsigned overflow behaviour of `usize` made explicit (`USIZE`) where the
source performs a checked addition.  In-arena metadata (stack headers,
free-list allocation headers) is modelled as a write log: a list of
address/value pairs where a read returns the most recent write.
Intrusive linked lists (pool free list, free-list allocator list) are
modelled as Lean lists holding, in link order, the data of each node
together with the address it lives at.
-/

namespace RsAlloc

/-- lib.rs: `pub const ARENA_SIZE: usize = 128 * 1024`. -/
def ARENA_SIZE : Nat := 128 * 1024

/-- Number of values of the `usize` type on the (64-bit) host. -/
def USIZE : Nat := 2 ^ 64

/-- utils.rs `is_power_of_two`: `(x & (x - 1)) == 0`. -/
def is_power_of_two (x : Nat) : Bool := (x &&& (x - 1)) == 0

/-- utils.rs `align_forward`: round `addr` up to the next multiple of
`alignment` using the bit trick `addr & (alignment - 1)` for the modulo
(the source asserts that `alignment` is a power of two). -/
def align_forward (addr alignment : Nat) : Nat :=
  let modulo := addr &&& (alignment - 1)
  if modulo != 0 then addr + (alignment - modulo) else addr

/-- utils.rs `calc_padding_with_header`: padding placing the payload at a
multiple of `alignment` while leaving at least `header_size` bytes before
it.  Straight translation of the source, including the bit-trick modulo. -/
def calc_padding_with_header (ptr alignment header_size : Nat) : Nat :=
  let modulo := ptr &&& (alignment - 1)
  let padding := if modulo != 0 then alignment - modulo else 0
  if padding < header_size then
    let diff := header_size - padding
    if diff &&& (alignment - 1) != 0 then
      padding + alignment * (1 + diff / alignment)
    else
      header_size
  else
    padding

/-- linear_arena.rs `alloc` for the bump allocator.  State is the current
offset `curr`; `s` is `arena.start()`.  Returns the allocated address and
the new offset, or `none` for a null result.  The checked addition of the
source is modelled by the explicit `USIZE` bound.  Note that the
out-of-memory test of the source compares `end` against
`start + ARENA_SIZE`, `start` being the aligned allocation address. -/
def linear_alloc (s curr size align : Nat) : Option (Nat × Nat) :=
  let start := align_forward (curr + s) align
  if start + size < USIZE then
    if start + size > start + ARENA_SIZE then none
    else some (start, start + size - s)
  else none

/-- stack.rs `StackHeader`: `{ prev_offset: usize, padding: usize }`. -/
structure StackHeader where
  prev_offset : Nat
  padding : Nat
deriving DecidableEq

/-- `size_of::<StackHeader>()` on the 64-bit host: two words. -/
def stackHeaderSize : Nat := 16

/-- State of the stack allocator: the two offsets plus the in-arena header
writes, most recent first (a read returns the most recent write at an
address).  `arena.start()` is passed separately to each operation. -/
structure StackState where
  prev_offset : Nat
  curr_offset : Nat
  mem : List (Nat × StackHeader)
deriving DecidableEq

/-- stack.rs `alloc`: bump by padding-with-header plus size, write the
header `{prev_offset = old prev_offset, padding}` just before the payload,
shift `prev`/`curr`, return the payload address. -/
def stack_alloc (s : Nat) (st : StackState) (size align : Nat) :
    Option (Nat × StackState) :=
  let curr_addr := st.curr_offset + s
  let padding := calc_padding_with_header curr_addr align stackHeaderSize
  let e := curr_addr + padding + size
  if e > s + ARENA_SIZE then none
  else
    some (curr_addr + padding,
      { prev_offset := st.curr_offset,
        curr_offset := e - s,
        mem := (curr_addr + padding - stackHeaderSize,
                ⟨st.prev_offset, padding⟩) :: st.mem })

/-- stack.rs `dealloc`: silently ignore out-of-bounds, not-yet-allocated
and out-of-order frees; otherwise pop using the stored header.  Reading a
header address that was never written is modelled as a silent return. -/
def stack_dealloc (s : Nat) (st : StackState) (ptr : Nat) : StackState :=
  if ¬ (s ≤ ptr ∧ ptr < s + ARENA_SIZE) then st
  else if s + st.curr_offset ≤ ptr then st
  else
    match st.mem.lookup (ptr - stackHeaderSize) with
    | none => st
    | some h =>
      if ptr - h.padding - s ≠ st.prev_offset then st
      else { st with curr_offset := st.prev_offset, prev_offset := h.prev_offset }

/-- Run a whole list of `(size, align)` allocation requests, failing if any
single allocation returns a null address; also returns the list of the
addresses handed out, in request order. -/
def stack_allocs (s : Nat) : StackState → List (Nat × Nat) →
    Option (StackState × List Nat)
  | st, [] => some (st, [])
  | st, (sz, al) :: rest =>
    match stack_alloc s st sz al with
    | none => none
    | some (p, st1) =>
      match stack_allocs s st1 rest with
      | none => none
      | some (st2, ps) => some (st2, p :: ps)

/-- Deallocate each pointer of the list in turn. -/
def stack_deallocs (s : Nat) (st : StackState) (ps : List Nat) : StackState :=
  ps.foldl (stack_dealloc s) st

/-- State of the pool allocator; the intrusive free list is modelled as the
list of chunk addresses in link order starting at `head`. -/
structure PoolState where
  chunk_size : Nat
  freeList : List Nat
  initDone : Bool
deriving DecidableEq

/-- pool.rs `init` loop: node `i` lives at `arena.start + i * chunk_size`
and links to node `i + 1`; the resulting chain from `head` is produced
here directly, one node per loop iteration (`i` counts up, `k` counts the
remaining iterations). -/
def pool_chunks (s c : Nat) : Nat → Nat → List Nat
  | _, 0 => []
  | i, k + 1 => (s + i * c) :: pool_chunks s c (i + 1) k

/-- pool.rs `init`: build the free list of `ARENA_SIZE / chunk_size`
chunks and mark the allocator initialized.  After the loop the source
unconditionally sets `head` to `arena.start`; when the loop ran zero times
(`chunk_size > ARENA_SIZE`) no node was written there, but the
zero-initialized arena bytes read back as a `PoolFreeNode` whose `next` is
null, so the list then consists of that single fabricated node at
`arena.start`. -/
def pool_init (s : Nat) (st : PoolState) : PoolState :=
  { st with initDone := true,
            freeList :=
              match ARENA_SIZE / st.chunk_size with
              | 0 => [s]
              | k + 1 => pool_chunks s st.chunk_size 0 (k + 1) }

/-- pool.rs `alloc`: panic when the size exceeds the chunk size (modelled
as `none`), lazily initialize, then detach and return the head chunk;
`none` for a null result when the list is empty.  The requested alignment
is ignored by the source. -/
def pool_alloc (s : Nat) (st : PoolState) (size _align : Nat) :
    Option (Nat × PoolState) :=
  if size > st.chunk_size then none
  else
    let st := if st.initDone then st else pool_init s st
    match st.freeList with
    | [] => none
    | h :: t => some (h, { st with freeList := t })

/-- linked_list.rs `PlacementPolicy`. -/
inductive PlacementPolicy where
  | FindFirst
  | FindBest
deriving DecidableEq

/-- linked_list.rs `FreeNode` as it sits in the intrusive list: the address
it lives at together with its `block_size` (its `next` pointer is encoded
by the position in the Lean list). -/
structure FLNode where
  addr : Nat
  block_size : Nat
deriving DecidableEq

/-- linked_list.rs `AllocationHeader`: `{ block_size: usize, padding: usize }`. -/
structure AllocationHeader where
  block_size : Nat
  padding : Nat
deriving DecidableEq

/-- `size_of::<FreeNode>()` on the 64-bit host: pointer plus word. -/
def freeNodeSize : Nat := 16

/-- `size_of::<AllocationHeader>()` on the 64-bit host: two words. -/
def allocationHeaderSize : Nat := 16

/-- State of the free-list allocator: the free list in link order from
`head`, and the allocation-header writes, most recent first. -/
structure FLState where
  policy : PlacementPolicy
  initDone : Bool
  nodes : List FLNode
  headers : List (Nat × AllocationHeader)
deriving DecidableEq

/-- linked_list.rs `init`: a single free node covering the whole arena. -/
def fl_init (s : Nat) (st : FLState) : FLState :=
  { st with initDone := true, nodes := [⟨s, ARENA_SIZE⟩] }

/-- linked_list.rs `find_first`: walk the list, stop at the first node
whose `block_size` fits `size` plus that node's padding.  `prev` is the
node visited just before the current one and `pad` the padding computed at
the most recently visited node, both threaded exactly like the source's
mutable locals.  Returns `(chosen, previous-of-chosen, padding)`. -/
def find_first (size align : Nat) :
    List FLNode → Option FLNode → Nat → (Option FLNode × Option FLNode × Nat)
  | [], prev, pad => (none, prev, pad)
  | v :: rest, prev, _ =>
    let p := calc_padding_with_header v.addr align freeNodeSize
    if v.block_size ≥ size + p then (some v, prev, p)
    else find_first size align rest (some v) p

/-- linked_list.rs `find_best`: walk the whole list remembering the
fitting node with the smallest surplus.  As in the source, the returned
padding is the padding computed at the node visited last, which is the
best node only when the best node closes the list. -/
def find_best (size align : Nat) :
    List FLNode → Option FLNode → Option FLNode → Option FLNode → Nat → Nat →
    (Option FLNode × Option FLNode × Nat)
  | [], _, best, prev_to_best, pad, _ => (best, prev_to_best, pad)
  | v :: rest, prev, best, prev_to_best, _, sd =>
    let p := calc_padding_with_header v.addr align freeNodeSize
    let required := size + p
    if v.block_size ≥ required ∧ v.block_size - required < sd then
      find_best size align rest (some v) (some v) prev p (v.block_size - required)
    else
      find_best size align rest (some v) best prev_to_best p sd

/-- Dispatch on the placement policy as the source's `match` does,
with the initial values of the source's mutable locals. -/
def fl_find (pol : PlacementPolicy) (nodes : List FLNode) (size align : Nat) :
    Option FLNode × Option FLNode × Nat :=
  match pol with
  | .FindFirst => find_first size align nodes none 0
  | .FindBest => find_best size align nodes none none none 0 (USIZE - 1)

/-- Splice the node at address `a` out of the list (the source updates the
predecessor's `next` to the spliced node's `next`). -/
def spliceOut : List FLNode → Nat → List FLNode
  | [], _ => []
  | v :: rest, a => if v.addr = a then rest else v :: spliceOut rest a

/-- linked_list.rs `alloc`: lazy init, null when the list is empty,
normalize size and alignment, search by policy, detach (or, for a sole
node, split) the chosen node, and write an `AllocationHeader` in front of
the payload only when the chosen block is strictly larger than needed.
When the search returns no previous node the chosen node is the head (both
search functions guarantee this), so the sole-node test of the source
(`chosen.next` being none) is the list having no second element. -/
def fl_alloc (s : Nat) (st0 : FLState) (lsize lalign : Nat) :
    Option (Nat × FLState) :=
  let st := if st0.initDone then st0 else fl_init s st0
  match st.nodes with
  | [] => none
  | _ :: tl =>
    let size := if lsize < freeNodeSize then freeNodeSize else lsize
    let alignment := if lalign < 8 then 8 else lalign
    match fl_find st.policy st.nodes size alignment with
    | (none, _, _) => none
    | (some fn, prev?, padding) =>
      let need := padding + size
      let nodes' :=
        match prev? with
        | some _ => spliceOut st.nodes fn.addr
        | none =>
          match tl with
          | v :: rest => v :: rest
          | [] =>
            if fn.block_size > need then
              [⟨fn.addr + need, fn.block_size - need⟩]
            else []
      let headers' :=
        if fn.block_size > need then
          (fn.addr + padding - allocationHeaderSize,
           AllocationHeader.mk need padding) :: st.headers
        else st.headers
      some (fn.addr + padding, { st with nodes := nodes', headers := headers' })

/-- linked_list.rs `dealloc`, insertion part: walk past every node whose
address is not above `fa`; the first node beyond `fa` (if any) becomes the
new node's successor.  Coalesce with the predecessor when it ends exactly
at `fa` (the source increases the merged size by the successor's
`block_size` there), then with the successor, then relink.  When every
node lies at or below `fa` the new node is appended with no coalescing. -/
def fl_insert (nodes : List FLNode) (fa bs : Nat) : List FLNode :=
  let pre := nodes.takeWhile (fun v => decide (v.addr ≤ fa))
  let post := nodes.dropWhile (fun v => decide (v.addr ≤ fa))
  match post with
  | [] => pre ++ [⟨fa, bs⟩]
  | val :: post' =>
    match pre.getLast? with
    | some pv =>
      if pv.addr + pv.block_size = fa then
        let bs1 := bs + val.block_size
        let fa1 := pv.addr
        if fa1 + bs1 = val.addr then
          pre.dropLast ++ ⟨fa1, bs1 + val.block_size⟩ :: post'
        else
          pre.dropLast ++ ⟨fa1, bs1⟩ :: val :: post'
      else
        if fa + bs = val.addr then pre ++ ⟨fa, bs + val.block_size⟩ :: post'
        else pre ++ ⟨fa, bs⟩ :: val :: post'
    | none =>
      if fa + bs = val.addr then ⟨fa, bs + val.block_size⟩ :: post'
      else ⟨fa, bs⟩ :: val :: post'

/-- linked_list.rs `dealloc`: read the `AllocationHeader` just before the
pointer (reading an address that was never written is modelled as `none`),
recover the block base and size, then either start the list or insert with
coalescing.  The source performs no bounds or sanity check. -/
def fl_dealloc (st : FLState) (ptr : Nat) : Option FLState :=
  match st.headers.lookup (ptr - allocationHeaderSize) with
  | none => none
  | some h =>
    let fa := ptr - h.padding
    match st.nodes with
    | [] => some { st with nodes := [⟨fa, h.block_size⟩] }
    | _ :: _ => some { st with nodes := fl_insert st.nodes fa h.block_size }

/-! Helper lemmas about the alignment arithmetic. -/

/-- Proof-internal restatement of `calc_padding_with_header` with the bit
trick replaced by a genuine modulo; `calc_padding_eq_padMod` proves it
equal to the source translation for power-of-two alignments, and all
arithmetic facts are established on this form. -/
def padMod (a ptr h : Nat) : Nat :=
  let m := ptr % a
  let p0 := if m = 0 then 0 else a - m
  if p0 < h then
    let d := h - p0
    if d % a = 0 then h else p0 + a * (1 + d / a)
  else p0

theorem calc_padding_eq_padMod (ptr k h : Nat) :
    calc_padding_with_header ptr (2 ^ k) h = padMod (2 ^ k) ptr h := by
  simp only [calc_padding_with_header, padMod, Nat.and_pow_two_sub_one_eq_mod,
    bne_iff_ne, ne_eq, ite_not]

theorem mod_step (a ptr p0 c : Nat) (key : (ptr + p0) % a = 0) :
    (ptr + (p0 + a * c)) % a = 0 := by
  have he : ptr + (p0 + a * c) = (ptr + p0) + a * c := by omega
  rw [he, Nat.add_mul_mod_self_left, key]

theorem mod_exact (a ptr p0 h : Nat) (key : (ptr + p0) % a = 0)
    (hp : p0 ≤ h) (hd : (h - p0) % a = 0) : (ptr + h) % a = 0 := by
  have hdd := Nat.div_add_mod (h - p0) a
  have he : ptr + h = (ptr + p0) + a * ((h - p0) / a) := by omega
  rw [he, Nat.add_mul_mod_self_left, key]

theorem round_up_min (a p0 h q : Nat) (ha : 0 < a) (hp : p0 < h)
    (hu : (h - p0) % a ≠ 0) (hqm : q % a = p0) (hhq : h ≤ q) :
    p0 + a * (1 + (h - p0) / a) ≤ q := by
  have hdd := Nat.div_add_mod (h - p0) a
  have hdq := Nat.div_add_mod q a
  have hul : (h - p0) % a < a := Nat.mod_lt _ ha
  have hlt : a * ((h - p0) / a) < a * (q / a) := by omega
  have hqa : (h - p0) / a + 1 ≤ q / a := Nat.lt_of_mul_lt_mul_left hlt
  have hmul : a * ((h - p0) / a + 1) ≤ a * (q / a) := Nat.mul_le_mul_left a hqa
  have he : a * ((h - p0) / a + 1) = a * ((h - p0) / a) + a := by ring
  have he2 : a * (1 + (h - p0) / a) = a + a * ((h - p0) / a) := by ring
  omega

theorem aligned_base_zero (a ptr : Nat) (h1 : ptr % a = 0) :
    (ptr + 0) % a = 0 := by
  simpa using h1

theorem aligned_base_pad (a ptr : Nat) (ha : 0 < a) (_h1 : ptr % a ≠ 0) :
    (ptr + (a - ptr % a)) % a = 0 := by
  have hdm := Nat.div_add_mod ptr a
  have hm : ptr % a < a := Nat.mod_lt _ ha
  have he : ptr + (a - ptr % a) = a * (ptr / a) + a := by omega
  rw [he, Nat.mul_add_mod, Nat.mod_self]

theorem padMod_mod (a ptr h : Nat) (ha : 0 < a) :
    (ptr + padMod a ptr h) % a = 0 := by
  simp only [padMod]
  split_ifs with h1 h2 h3 h2 h3
  · exact mod_exact a ptr 0 h (aligned_base_zero a ptr h1) (by omega)
      (by simpa using h3)
  · exact mod_step a ptr 0 _ (aligned_base_zero a ptr h1)
  · exact aligned_base_zero a ptr h1
  · exact mod_exact a ptr (a - ptr % a) h (aligned_base_pad a ptr ha h1)
      (by omega) h3
  · exact mod_step a ptr (a - ptr % a) _ (aligned_base_pad a ptr ha h1)
  · exact aligned_base_pad a ptr ha h1

theorem padMod_ge (a ptr h : Nat) (ha : 0 < a) : h ≤ padMod a ptr h := by
  simp only [padMod]
  have hd0 := Nat.div_add_mod (h - 0) a
  have hdm := Nat.div_add_mod (h - (a - ptr % a)) a
  have hu0 : (h - 0) % a < a := Nat.mod_lt _ ha
  have hum : (h - (a - ptr % a)) % a < a := Nat.mod_lt _ ha
  have he0 : a * (1 + (h - 0) / a) = a + a * ((h - 0) / a) := by ring
  have hem : a * (1 + (h - (a - ptr % a)) / a) =
      a + a * ((h - (a - ptr % a)) / a) := by ring
  split_ifs <;> omega

theorem qmod_base (a ptr q : Nat) (ha : 0 < a) (hq : (ptr + q) % a = 0) :
    q % a = (if ptr % a = 0 then 0 else a - ptr % a) := by
  have hdm := Nat.div_add_mod ptr a
  have hm : ptr % a < a := Nat.mod_lt _ ha
  have hmq : (ptr % a + q) % a = 0 := by
    have he : ptr + q = a * (ptr / a) + (ptr % a + q) := by omega
    rw [he, Nat.mul_add_mod] at hq
    exact hq
  split_ifs with h0
  · rw [h0, Nat.zero_add] at hmq
    exact hmq
  · have hdm2 := Nat.div_add_mod (ptr % a + q) a
    rw [hmq, Nat.add_zero] at hdm2
    rcases hc : (ptr % a + q) / a with _ | c
    · rw [hc] at hdm2
      simp at hdm2
      omega
    · rw [hc] at hdm2
      have he : q = (a - ptr % a) + a * c := by
        have hx : a * (c + 1) = a * c + a := by ring
        omega
      rw [he, Nat.add_mul_mod_self_left]
      exact Nat.mod_eq_of_lt (by omega)

theorem padMod_min (a ptr h q : Nat) (ha : 0 < a)
    (hq : (ptr + q) % a = 0) (hhq : h ≤ q) : padMod a ptr h ≤ q := by
  have hqm := qmod_base a ptr q ha hq
  have hdq := Nat.div_add_mod q a
  simp only [padMod]
  split_ifs with h1 h2 h3 h2 h3
  · exact hhq
  · rw [if_pos h1] at hqm
    have := round_up_min a 0 h q ha (by omega) (by simpa using h3) (by omega) hhq
    omega
  · rw [if_pos h1] at hqm
    omega
  · exact hhq
  · rw [if_neg h1] at hqm
    exact round_up_min a (a - ptr % a) h q ha h2 h3 hqm hhq
  · rw [if_neg h1] at hqm
    omega

/-- For power-of-two alignments the computed padding makes the payload
address a multiple of the alignment. -/
theorem calc_padding_two_pow_mod (ptr k h : Nat) :
    (ptr + calc_padding_with_header ptr (2 ^ k) h) % 2 ^ k = 0 := by
  rw [calc_padding_eq_padMod]
  exact padMod_mod _ _ _ (Nat.two_pow_pos k)

/-- For power-of-two alignments the computed padding leaves room for the
header. -/
theorem calc_padding_two_pow_ge (ptr k h : Nat) :
    h ≤ calc_padding_with_header ptr (2 ^ k) h := by
  rw [calc_padding_eq_padMod]
  exact padMod_ge _ _ _ (Nat.two_pow_pos k)

/-- For power-of-two alignments the computed padding is the least value
satisfying the two requirements above. -/
theorem calc_padding_two_pow_min (ptr k h q : Nat)
    (hq : (ptr + q) % 2 ^ k = 0) (hhq : h ≤ q) :
    calc_padding_with_header ptr (2 ^ k) h ≤ q := by
  rw [calc_padding_eq_padMod]
  exact padMod_min _ _ _ _ (Nat.two_pow_pos k) hq hhq

/-- `align_forward` lands on a multiple of a power-of-two alignment. -/
theorem align_forward_two_pow_mod (addr k : Nat) :
    align_forward addr (2 ^ k) % 2 ^ k = 0 := by
  have ha : 0 < 2 ^ k := Nat.two_pow_pos k
  have hm : addr % 2 ^ k < 2 ^ k := Nat.mod_lt _ ha
  have hdm := Nat.div_add_mod addr (2 ^ k)
  simp only [align_forward, Nat.and_pow_two_sub_one_eq_mod, bne_iff_ne, ne_eq,
    ite_not]
  split_ifs with h1
  · simpa using h1
  · have he : addr + (2 ^ k - addr % 2 ^ k) = 2 ^ k * (addr / 2 ^ k) + 2 ^ k := by
      omega
    rw [he, Nat.mul_add_mod, Nat.mod_self]

/-! Claim theorems. -/

/-- C5: for every address `ptr`, every power-of-two alignment `a` and
every header size `h`, `calc_padding_with_header ptr a h` is the minimal
`p` with `(ptr + p) % a = 0` and `h ≤ p`; in particular it returns `13`
for `(3, 8, 8)` and `29` for `(3, 8, 29)`. -/
theorem c5_padding_law :
    (∀ ptr a h k, a = 2 ^ k →
      ((ptr + calc_padding_with_header ptr a h) % a = 0 ∧
       h ≤ calc_padding_with_header ptr a h ∧
       ∀ q, (ptr + q) % a = 0 → h ≤ q → calc_padding_with_header ptr a h ≤ q)) ∧
    calc_padding_with_header 3 8 8 = 13 ∧
    calc_padding_with_header 3 8 29 = 29 := by
  refine ⟨?_, by decide, by decide⟩
  rintro ptr a h k rfl
  exact ⟨calc_padding_two_pow_mod ptr k h, calc_padding_two_pow_ge ptr k h,
    fun q hq hhq => calc_padding_two_pow_min ptr k h q hq hhq⟩

/-- Witness for C5: the padding law evaluated at `ptr = 3`, `a = 4`,
`h = 5` (the computed padding is 5 and `(3 + 5) % 4 = 0`). -/
theorem c5_padding_law_witness :
    (3 + calc_padding_with_header 3 4 5) % 4 = 0 ∧
    5 ≤ calc_padding_with_header 3 4 5 :=
  ⟨(c5_padding_law.1 3 4 5 2 rfl).1, (c5_padding_law.1 3 4 5 2 rfl).2.1⟩

/-- C1 (code bug): the linear allocator's out-of-memory test compares
`end` against `start + ARENA_SIZE` (so it only rejects `size > ARENA_SIZE`)
instead of `arena.start + ARENA_SIZE` as the specification states.
Starting from a fresh allocator with `arena.start = 0`, allocating the
whole arena and then 8 more bytes succeeds with address 131072 and new
offset 131080, although the second allocation's `end` exceeds
`arena.start + ARENA_SIZE`, where the claim requires a null return. -/
theorem c1_linear_bounds_check :
    linear_alloc 0 0 131072 1 = some (0, 131072) ∧
    linear_alloc 0 131072 8 1 = some (131072, 131080) ∧
    0 + ARENA_SIZE < 131072 + 8 := by
  refine ⟨by decide, by decide, by decide⟩

/-- C2 (code bug): when the free-list `dealloc` coalesces with the
predecessor it executes `free_node.block_size += val.block_size`, adding
the successor node's size where the specification (and the comment in the
source) call for the predecessor's.  Reachable from a fresh first-fit
allocator at `arena.start = 0`: two 16-byte allocations return pointers 16
and 48 (blocks `[0, 32)` and `[32, 64)`); freeing 16 and then 48 triggers
predecessor coalescing for the second free (the node at 0, of size 32,
ends at the freed base 32), but the resulting merged node has size
131040 = 32 + 131008 (the successor's size absorbed) rather than
32 + 32 = 64, and it overlaps the remaining node at 64. -/
theorem c2_merge_adds_successor_size :
    ((((fl_alloc 0 ⟨.FindFirst, false, [], []⟩ 16 8).bind fun a =>
       (fl_alloc 0 a.2 16 8).bind fun b =>
       (fl_dealloc b.2 16).bind fun c =>
       fl_dealloc c 48)).map FLState.nodes) =
      some [⟨0, 131040⟩, ⟨64, 131008⟩] ∧
    131040 = 32 + 131008 ∧ 32 + 32 ≠ 131040 := by
  refine ⟨by decide, by decide, by decide⟩

/-- C3 (code bug): when every free node lies at or below the freed base,
the free-list `dealloc` appends the new node after the last node without
any coalescing, so two adjacent free blocks survive the call.  Reachable
from a fresh first-fit allocator at `arena.start = 0`: allocate 32, 32 and
130960 bytes (the third being an exact fit that empties the list), free
the first block (pointer 16, giving the sole node `[0, 48)`), then free
the second block (pointer 64, freed base 48).  The result keeps the nodes
`(0, 48)` and `(48, 48)` with `0 + 48 = 48`: two adjacent unmerged free
blocks, violating invariant P7. -/
theorem c3_adjacent_free_blocks_remain :
    ((((fl_alloc 0 ⟨.FindFirst, false, [], []⟩ 32 8).bind fun a =>
       (fl_alloc 0 a.2 32 8).bind fun b =>
       (fl_alloc 0 b.2 130960 8).bind fun c =>
       (fl_dealloc c.2 16).bind fun d =>
       fl_dealloc d 64)).map FLState.nodes) =
      some [⟨0, 48⟩, ⟨48, 48⟩] ∧
    0 + 48 = 48 := by
  refine ⟨by decide, by decide⟩

theorem find_first_padding (size align : Nat) (l : List FLNode) :
    ∀ (prev : Option FLNode) (pad0 : Nat) (fn : FLNode) (pr : Option FLNode)
      (pad : Nat),
      find_first size align l prev pad0 = (some fn, pr, pad) →
      pad = calc_padding_with_header fn.addr align freeNodeSize := by
  induction l with
  | nil =>
    intro prev pad0 fn pr pad h
    simp [find_first] at h
  | cons v rest ih =>
    intro prev pad0 fn pr pad h
    rw [find_first] at h
    split at h
    · injection h with h1 h2
      injection h2 with h2 h3
      injection h1 with h1
      subst h1; subst h3
      rfl
    · exact ih _ _ _ _ _ h

theorem fl_alloc_some (s : Nat) (st0 : FLState) (lsize lalign p : Nat)
    (st' : FLState) (h : fl_alloc s st0 lsize lalign = some (p, st')) :
    ∃ fn pr pad,
      fl_find (if st0.initDone then st0 else fl_init s st0).policy
        (if st0.initDone then st0 else fl_init s st0).nodes
        (if lsize < freeNodeSize then freeNodeSize else lsize)
        (if lalign < 8 then 8 else lalign) = (some fn, pr, pad) ∧
      p = fn.addr + pad := by
  rw [fl_alloc] at h
  generalize hst : (if st0.initDone = true then st0 else fl_init s st0) = st at h ⊢
  rcases hn : st.nodes with _ | ⟨v, tl⟩
  · rw [hn] at h
    simp at h
  · rw [hn] at h
    simp only [] at h
    rcases hfind : fl_find st.policy (v :: tl)
        (if lsize < freeNodeSize then freeNodeSize else lsize)
        (if lalign < 8 then 8 else lalign) with ⟨fn?, pr, pad⟩
    rw [hfind] at h
    rcases fn? with _ | fn
    · simp at h
    · refine ⟨fn, pr, pad, rfl, ?_⟩
      simp only [] at h
      injection h with h1
      injection h1 with h1 h2
      omega

theorem norm_align_pow (k : Nat) :
    ∃ j, (if 2 ^ k < 8 then 8 else 2 ^ k) = 2 ^ j ∧ (2 ^ k : Nat) ∣ 2 ^ j := by
  rcases le_or_lt 3 k with hk | hk
  · have h8 : (8 : Nat) ≤ 2 ^ k := by
      calc (8 : Nat) = 2 ^ 3 := by norm_num
      _ ≤ 2 ^ k := Nat.pow_le_pow_right (by norm_num) hk
    exact ⟨k, by rw [if_neg (by omega)], dvd_refl _⟩
  · have h8 : (2 : Nat) ^ k < 8 := by
      calc (2 : Nat) ^ k < 2 ^ 3 := Nat.pow_lt_pow_right (by norm_num) hk
      _ = 8 := by norm_num
    refine ⟨3, ?_, pow_dvd_pow 2 (by omega)⟩
    rw [if_pos h8]
    norm_num

/-- C4 counterexample: two of the four allocators can return addresses
that are not multiples of the requested power-of-two alignment.  Pool,
reachable from a fresh allocator: `arena.start = 8`, `chunk_size = 12`,
two `alloc(4, 8)` calls (alignment `8 ≤ chunk_size`); the second returns
address 20 with `20 % 8 = 4`.  Free-list under best-fit: with free nodes
at 8, 100 and 208 of sizes 240, 40 and 1000, `alloc(20, 8)` selects the
exact-fitting node at 100 but applies the padding computed at the node
visited last (208), returning address 116 with `116 % 8 = 4`. -/
theorem c4_counterexample :
    (((pool_alloc 8 ⟨12, [], false⟩ 4 8).bind fun a =>
        pool_alloc 8 a.2 4 8).map Prod.fst) = some 20 ∧
    20 % 8 ≠ 0 ∧ (8 : Nat) ≤ 12 ∧
    ((fl_alloc 0 ⟨.FindBest, true, [⟨8, 240⟩, ⟨100, 40⟩, ⟨208, 1000⟩], []⟩
        20 8).map Prod.fst) = some 116 ∧
    116 % 8 ≠ 0 := by
  refine ⟨by decide, by decide, by decide, by decide, by decide⟩

/-- C4, amended: for every successful `alloc(size, align)` with
power-of-two `align` from the linear allocator, the stack allocator, or
the free-list allocator under the first-fit policy, the returned address
is a multiple of `align`.  (The pool allocator and the free-list allocator
under best-fit can return misaligned addresses; see the counterexample.) -/
theorem c4_amended :
    (∀ s curr size align k r, align = 2 ^ k →
       linear_alloc s curr size align = some r → r.1 % align = 0) ∧
    (∀ s st size align k p st', align = 2 ^ k →
       stack_alloc s st size align = some (p, st') → p % align = 0) ∧
    (∀ s st lsize lalign k p st', lalign = 2 ^ k →
       st.policy = PlacementPolicy.FindFirst →
       fl_alloc s st lsize lalign = some (p, st') → p % lalign = 0) := by
  refine ⟨?_, ?_, ?_⟩
  · rintro s curr size align k r rfl h
    rw [linear_alloc] at h
    split at h
    · split at h
      · simp at h
      · injection h with h1
        rw [← h1]
        exact align_forward_two_pow_mod (curr + s) k
    · simp at h
  · rintro s st size align k p st' rfl h
    rw [stack_alloc] at h
    split at h
    · simp at h
    · injection h with h1
      injection h1 with h1 h2
      rw [← h1]
      exact calc_padding_two_pow_mod (st.curr_offset + s) k stackHeaderSize
  · rintro s st lsize lalign k p st' rfl hpol h
    obtain ⟨fn, pr, pad, hfind, hp⟩ := fl_alloc_some s st lsize (2 ^ k) p st' h
    have hpol' : (if st.initDone then st else fl_init s st).policy =
        PlacementPolicy.FindFirst := by
      split_ifs <;> simpa [fl_init]
    rw [hpol', fl_find] at hfind
    have hpad := find_first_padding _ _ _ _ _ _ _ _ hfind
    obtain ⟨j, hj, hdvd⟩ := norm_align_pow k
    subst hp
    rw [hpad, hj]
    have hmod := calc_padding_two_pow_mod fn.addr j freeNodeSize
    exact Nat.mod_eq_zero_of_dvd
      (dvd_trans hdvd (Nat.dvd_of_mod_eq_zero hmod))

/-- Witness for C4 as amended: a successful allocation from each of the
three allocators at concrete inputs, each returning an aligned address. -/
theorem c4_amended_witness :
    ((0, 4) : Nat × Nat).1 % 4 = 0 ∧ (16 : Nat) % 8 = 0 ∧ (16 : Nat) % 8 = 0 :=
  ⟨c4_amended.1 0 0 4 4 2 (0, 4) rfl (by decide),
   c4_amended.2.1 0 ⟨0, 0, []⟩ 8 8 3 16 ⟨0, 24, [(0, ⟨0, 16⟩)]⟩ rfl (by decide),
   c4_amended.2.2 0 ⟨.FindFirst, true, [⟨0, 131072⟩], []⟩ 16 8 3 16
     ⟨.FindFirst, true, [⟨32, 131040⟩], [(0, ⟨32, 16⟩)]⟩ rfl rfl (by decide)⟩

/-- C6 counterexample: the stack allocator's header stores the
allocator's previous offset at entry, not the current offset as the claim
states.  From a fresh allocator at `arena.start = 0`, the first
`alloc(8, 8)` leaves `curr = 24`; the second `alloc(8, 8)` then writes the
header `(prev_offset := 0, padding := 16)` at address 24, although `curr`
at entry to that call is 24 and `0 ≠ 24`. -/
theorem c6_counterexample :
    stack_alloc 0 ⟨0, 0, []⟩ 8 8 = some (16, ⟨0, 24, [(0, ⟨0, 16⟩)]⟩) ∧
    stack_alloc 0 ⟨0, 24, [(0, ⟨0, 16⟩)]⟩ 8 8 =
      some (40, ⟨24, 48, [(24, ⟨0, 16⟩), (0, ⟨0, 16⟩)]⟩) ∧
    (0 : Nat) ≠ 24 := by
  refine ⟨by decide, by decide, by decide⟩

/-- C6, amended: every successful stack `alloc(size, align)` writes, at
`cur + pad - sizeof(StackHeader)`, a header whose `prev_offset` equals the
allocator's PREVIOUS offset at entry to the call (`prev`, not `curr`) and
whose `padding` equals `pad`. -/
theorem c6_amended (s : Nat) (st : StackState) (size align p : Nat)
    (st' : StackState) (h : stack_alloc s st size align = some (p, st')) :
    st'.mem.head? =
      some (st.curr_offset + s +
              calc_padding_with_header (st.curr_offset + s) align stackHeaderSize -
              stackHeaderSize,
            ⟨st.prev_offset,
             calc_padding_with_header (st.curr_offset + s) align stackHeaderSize⟩) := by
  rw [stack_alloc] at h
  split at h
  · simp at h
  · injection h with h1
    injection h1 with h1 h2
    rw [← h2]
    rfl

/-- Witness for C6 as amended: the second allocation of the
counterexample scenario, whose header stores `prev_offset = 0`. -/
theorem c6_amended_witness :
    (StackState.mk 24 48 [(24, ⟨0, 16⟩), (0, ⟨0, 16⟩)]).mem.head? =
      some (0 + 24 + calc_padding_with_header (24 + 0) 8 stackHeaderSize -
              stackHeaderSize,
            ⟨0, calc_padding_with_header (24 + 0) 8 stackHeaderSize⟩) := by
  have h := c6_amended 0 ⟨0, 24, [(0, ⟨0, 16⟩)]⟩ 8 8 40
    ⟨24, 48, [(24, ⟨0, 16⟩), (0, ⟨0, 16⟩)]⟩ (by decide)
  simpa using h

/-- C9: the stack allocator's `dealloc` returns silently and leaves the
allocator state (in particular `curr` and `prev`) unchanged whenever the
pointer lies outside `[arena.start, arena.end)`, or at or past the current
top, or the recorded header yields a candidate previous offset different
from `prev` (an out-of-order free). -/
theorem c9_silent_reject (s : Nat) (st : StackState) (ptr : Nat)
    (h : ¬ (s ≤ ptr ∧ ptr < s + ARENA_SIZE) ∨
         s + st.curr_offset ≤ ptr ∨
         ∃ hd, st.mem.lookup (ptr - stackHeaderSize) = some hd ∧
           ptr - hd.padding - s ≠ st.prev_offset) :
    stack_dealloc s st ptr = st := by
  by_cases h1 : ¬ (s ≤ ptr ∧ ptr < s + ARENA_SIZE)
  · rw [stack_dealloc, if_pos h1]
  · rw [stack_dealloc, if_neg h1]
    by_cases h2 : s + st.curr_offset ≤ ptr
    · rw [if_pos h2]
    · rw [if_neg h2]
      rcases h with hb | ht | ⟨hd, hl, hne⟩
      · exact absurd hb h1
      · exact absurd ht h2
      · rw [hl]
        exact if_pos hne

/-- Witness for C9: deallocating address 0 on a fresh allocator at
`arena.start = 0` is rejected because the pointer sits at the current
top. -/
theorem c9_silent_reject_witness :
    stack_dealloc 0 ⟨0, 0, []⟩ 0 = ⟨0, 0, []⟩ :=
  c9_silent_reject 0 ⟨0, 0, []⟩ 0 (Or.inr (Or.inl (by decide)))

theorem stack_roundtrip (s : Nat) (reqs : List (Nat × Nat)) :
    ∀ (st st' : StackState) (ps : List Nat),
      (∀ r ∈ reqs, 1 ≤ r.1 ∧ ∃ k, r.2 = 2 ^ k) →
      stack_allocs s st reqs = some (st', ps) →
      (stack_deallocs s st' ps.reverse).curr_offset = st.curr_offset ∧
      (stack_deallocs s st' ps.reverse).prev_offset = st.prev_offset ∧
      ∀ a, a < s + st.curr_offset →
        (stack_deallocs s st' ps.reverse).mem.lookup a = st.mem.lookup a := by
  induction reqs with
  | nil =>
    intro st st' ps hpos h
    rw [stack_allocs] at h
    injection h with h1
    injection h1 with h1 h2
    subst h1; subst h2
    simp [stack_deallocs]
  | cons r rest ih =>
    intro st st' ps hpos h
    obtain ⟨sz, al⟩ := r
    obtain ⟨hsz, k, hal⟩ := hpos (sz, al) (List.mem_cons_self _ _)
    simp only at hsz hal
    subst hal
    rw [stack_allocs] at h
    rcases ha : stack_alloc s st sz (2 ^ k) with _ | ⟨p, st1⟩ <;> rw [ha] at h
    · simp at h
    · simp only [] at h
      rcases hr : stack_allocs s st1 rest with _ | ⟨st2, ps'⟩ <;> rw [hr] at h
      · simp at h
      · simp only [] at h
        injection h with h1
        injection h1 with h1 h2
        subst h1
        subst h2
        -- dissect the successful allocation
        rw [stack_alloc] at ha
        split at ha
        · simp at ha
        · next hle =>
          injection ha with ha1
          injection ha1 with hp hst1
          -- give names to the padding and derived facts
          set pad := calc_padding_with_header (st.curr_offset + s) (2 ^ k)
            stackHeaderSize with hpaddef
          have hpad : stackHeaderSize ≤ pad :=
            calc_padding_two_pow_ge (st.curr_offset + s) k stackHeaderSize
          have hend : st.curr_offset + s + pad + sz ≤ s + ARENA_SIZE := by omega
          obtain ⟨st3c, st3p, st3m⟩ :=
            ih st1 st2 ps' (fun q hq => hpos q (List.mem_cons_of_mem _ hq)) hr
          have hc1 : st1.curr_offset = st.curr_offset + pad + sz := by
            rw [← hst1]
            simp only []
            omega
          have hp1 : st1.prev_offset = st.curr_offset := by
            rw [← hst1]
          have hm1 : st1.mem =
              (st.curr_offset + s + pad - stackHeaderSize,
               ⟨st.prev_offset, pad⟩) :: st.mem := by
            rw [← hst1]
          -- the deallocations in reverse order end with the head pointer
          have hfold : stack_deallocs s st2 (p :: ps').reverse =
              stack_dealloc s (stack_deallocs s st2 ps'.reverse) p := by
            rw [List.reverse_cons, stack_deallocs, List.foldl_append]
            rfl
          rw [hfold]
          set st3 := stack_deallocs s st2 ps'.reverse with hst3
          subst hp
          -- the final deallocation pops the first allocation
          have hlk : st3.mem.lookup (st.curr_offset + s + pad - stackHeaderSize) =
              some ⟨st.prev_offset, pad⟩ := by
            rw [st3m _ (by omega), hm1]
            exact List.lookup_cons_self
          have hd : stack_dealloc s st3 (st.curr_offset + s + pad) =
              { st3 with curr_offset := st3.prev_offset,
                         prev_offset := st.prev_offset } := by
            rw [stack_dealloc]
            rw [if_neg (by omega)]
            rw [if_neg (by omega)]
            rw [hlk]
            show (if st.curr_offset + s + pad - pad - s ≠ st3.prev_offset then st3
                  else { st3 with curr_offset := st3.prev_offset,
                                  prev_offset := st.prev_offset }) =
                { st3 with curr_offset := st3.prev_offset,
                           prev_offset := st.prev_offset }
            rw [if_neg (by simp only [st3p, hp1]; omega)]
          rw [hd]
          refine ⟨by simp [st3p, hp1], by simp, ?_⟩
          intro a hA
          simp only []
          rw [st3m a (by omega), hm1, List.lookup_cons]
          have hne : a ≠ st.curr_offset + s + pad - stackHeaderSize := by omega
          have hbeq : (a == st.curr_offset + s + pad - stackHeaderSize) = false :=
            beq_eq_false_iff_ne.mpr hne
          rw [hbeq]

/-- C7 counterexample: a zero-size allocation breaks the LIFO round trip.
From a fresh allocator at `arena.start = 0`, `alloc(0, 1)` succeeds and
returns address 16 with `curr = 16`, but `dealloc(16)` is rejected (the
pointer sits at the current top), so `curr` stays 16 instead of returning
to 0. -/
theorem c7_counterexample :
    stack_allocs 0 ⟨0, 0, []⟩ [(0, 1)] =
      some (⟨0, 16, [(0, ⟨0, 16⟩)]⟩, [16]) ∧
    (stack_deallocs 0 ⟨0, 16, [(0, ⟨0, 16⟩)]⟩ [16].reverse).curr_offset = 16 ∧
    (16 : Nat) ≠ 0 := by
  refine ⟨by decide, by decide, by decide⟩

/-- C7, amended: for every sequence of successful `alloc` calls on a fresh
stack allocator, each of size at least 1 (and with power-of-two alignment,
as the external interface guarantees), deallocating the returned pointers
in exactly the reverse order returns `curr` and `prev` to their starting
values `(0, 0)`. -/
theorem c7_amended (s : Nat) (reqs : List (Nat × Nat)) (st' : StackState)
    (ps : List Nat)
    (hreq : ∀ r ∈ reqs, 1 ≤ r.1 ∧ ∃ k, r.2 = 2 ^ k)
    (h : stack_allocs s ⟨0, 0, []⟩ reqs = some (st', ps)) :
    (stack_deallocs s st' ps.reverse).curr_offset = 0 ∧
    (stack_deallocs s st' ps.reverse).prev_offset = 0 := by
  obtain ⟨h1, h2, _⟩ := stack_roundtrip s reqs ⟨0, 0, []⟩ st' ps hreq h
  exact ⟨h1, h2⟩

/-- Witness for C7 as amended: allocating a 4-byte/align-4 and then an
8-byte/align-8 block from a fresh allocator at `arena.start = 0` and
freeing them in reverse order restores the offsets `(0, 0)`. -/
theorem c7_amended_witness :
    (stack_deallocs 0 ⟨20, 48, [(24, ⟨0, 20⟩), (0, ⟨0, 16⟩)]⟩
        [16, 40].reverse).curr_offset = 0 ∧
    (stack_deallocs 0 ⟨20, 48, [(24, ⟨0, 20⟩), (0, ⟨0, 16⟩)]⟩
        [16, 40].reverse).prev_offset = 0 :=
  c7_amended 0 [(4, 4), (8, 8)] ⟨20, 48, [(24, ⟨0, 20⟩), (0, ⟨0, 16⟩)]⟩
    [16, 40]
    (by
      intro r hr
      rcases List.mem_cons.mp hr with rfl | hr
      · exact ⟨by norm_num, 2, by norm_num⟩
      · rcases List.mem_cons.mp hr with rfl | hr
        · exact ⟨by norm_num, 3, by norm_num⟩
        · exact absurd hr (List.not_mem_nil _))
    (by decide)

theorem pool_chunks_length (s c : Nat) :
    ∀ (k i : Nat), (pool_chunks s c i k).length = k := by
  intro k
  induction k with
  | zero => intro i; rfl
  | succ n ih =>
    intro i
    rw [pool_chunks]
    simp [ih (i + 1)]

theorem pool_chunks_getElem (s c : Nat) :
    ∀ (k i j : Nat), j < k →
      (pool_chunks s c i k)[j]? = some (s + (i + j) * c) := by
  intro k
  induction k with
  | zero => intro i j h; omega
  | succ n ih =>
    intro i j h
    rw [pool_chunks]
    cases j with
    | zero => simp
    | succ m =>
      rw [List.getElem?_cons_succ, ih (i + 1) m (by omega)]
      have heq : s + (i + 1 + m) * c = s + (i + (m + 1)) * c := by ring
      rw [heq]

theorem pool_chunks_chain (s c : Nat) (hc : 0 < c) :
    ∀ (k i : Nat), List.Chain' (· < ·) (pool_chunks s c i k) := by
  intro k
  induction k with
  | zero => intro i; simp [pool_chunks]
  | succ n ih =>
    intro i
    rcases n with _ | m
    · simp [pool_chunks]
    · rw [pool_chunks, pool_chunks, List.chain'_cons]
      constructor
      · have he : (i + 1) * c = i * c + c := by ring
        omega
      · have hr := ih (i + 1)
        rw [pool_chunks] at hr
        exact hr

/-- C8 counterexample: for `chunk_size` larger than the arena the init
loop writes no node, but the source still points `head` at `arena.start`,
whose zero-initialized bytes read back as a node with a null `next`.  With
`chunk_size = 131073` the free list after init therefore holds one node
although `ARENA_SIZE / 131073 = 0`; the first (lazy-init) `alloc` then
hands out `arena.start` instead of reporting out of memory. -/
theorem c8_counterexample :
    (pool_init 0 ⟨131073, [], false⟩).freeList = [0] ∧
    ARENA_SIZE / 131073 = 0 ∧
    (pool_init 0 ⟨131073, [], false⟩).freeList.length ≠ ARENA_SIZE / 131073 ∧
    pool_alloc 0 ⟨131073, [], false⟩ 16 1 = some (0, ⟨131073, [], true⟩) := by
  refine ⟨by decide, by decide, by decide, by decide⟩

/-- C8, amended: after the pool allocator's lazy `init` with
`chunk_size = c` where a chunk holds the intrusive 8-byte node and at
least one chunk fits in the arena (`8 ≤ c ≤ ARENA_SIZE`), the free list
has exactly `ARENA_SIZE / c` nodes, node `i` lives at
`arena.start + i * c`, the chain is in strictly ascending address order
(so the last node's `next` is null), `head` points at chunk 0, and the
allocator is marked initialized.  (For `c > ARENA_SIZE` the list instead
holds a single fabricated node at `arena.start`; see the
counterexample.) -/
theorem c8_pool_init (s c : Nat) (l0 : List Nat) (b : Bool) (hc : 8 ≤ c)
    (hca : c ≤ ARENA_SIZE) :
    (pool_init s ⟨c, l0, b⟩).freeList.length = ARENA_SIZE / c ∧
    (∀ j, j < ARENA_SIZE / c →
      (pool_init s ⟨c, l0, b⟩).freeList[j]? = some (s + j * c)) ∧
    List.Chain' (· < ·) (pool_init s ⟨c, l0, b⟩).freeList ∧
    (pool_init s ⟨c, l0, b⟩).freeList.head? = some s ∧
    (pool_init s ⟨c, l0, b⟩).initDone = true := by
  have hn : 1 ≤ ARENA_SIZE / c := (Nat.one_le_div_iff (by omega)).mpr hca
  obtain ⟨m, hm⟩ : ∃ m, ARENA_SIZE / c = m + 1 := ⟨ARENA_SIZE / c - 1, by omega⟩
  have hfl : (pool_init s ⟨c, l0, b⟩).freeList =
      pool_chunks s c 0 (ARENA_SIZE / c) := by
    simp only [pool_init]
    rw [hm]
  rw [hfl]
  refine ⟨pool_chunks_length s c _ 0, ?_, pool_chunks_chain s c (by omega) _ 0,
    ?_, rfl⟩
  · intro j hj
    have h := pool_chunks_getElem s c (ARENA_SIZE / c) 0 j hj
    simpa using h
  · rw [hm, pool_chunks]
    simp

/-- Witness for C8 as amended: the pool of the repository's own test,
`chunk_size = 1024` at `arena.start = 0`, yields a 128-chunk free list
headed by chunk 0. -/
theorem c8_pool_init_witness :
    (pool_init 0 ⟨1024, [], false⟩).freeList.length = ARENA_SIZE / 1024 ∧
    (pool_init 0 ⟨1024, [], false⟩).freeList.head? = some 0 :=
  ⟨(c8_pool_init 0 1024 [] false (by norm_num) (by decide)).1,
   (c8_pool_init 0 1024 [] false (by norm_num) (by decide)).2.2.2.1⟩

/-- C10: when the free-list search returns a block whose `block_size`
exactly equals `need = padding + normalized size`, the successful `alloc`
writes no `AllocationHeader` (the result state carries the caller's header
log unchanged), even though `dealloc` unconditionally reads an
`AllocationHeader` at `ptr - sizeof(AllocationHeader)` — so deallocating
such a block reads memory no header was ever written to (modelled as a
failing read). -/
theorem c10_exact_fit_headerless (s : Nat) (pol : PlacementPolicy)
    (v : FLNode) (tl : List FLNode) (hdrs : List (Nat × AllocationHeader))
    (lsize lalign : Nat) (fn : FLNode) (pr : Option FLNode) (pad : Nat)
    (hfind : fl_find pol (v :: tl)
        (if lsize < freeNodeSize then freeNodeSize else lsize)
        (if lalign < 8 then 8 else lalign) = (some fn, pr, pad))
    (hexact : fn.block_size =
        pad + (if lsize < freeNodeSize then freeNodeSize else lsize)) :
    ∃ nodes', fl_alloc s ⟨pol, true, v :: tl, hdrs⟩ lsize lalign =
        some (fn.addr + pad, ⟨pol, true, nodes', hdrs⟩) ∧
      ∀ ptr, hdrs.lookup (ptr - allocationHeaderSize) = none →
        fl_dealloc ⟨pol, true, nodes', hdrs⟩ ptr = none := by
  simp only [fl_alloc, if_true]
  rw [hfind]
  simp only [hexact, lt_self_iff_false, gt_iff_lt, if_false]
  refine ⟨_, rfl, ?_⟩
  intro ptr hlk
  simp only [fl_dealloc]
  rw [hlk]

/-- Witness for C10: a single free node of size 32 at address 0 and an
`alloc(16, 8)` request; the normalized need is `16 + 16 = 32`, an exact
fit, so the allocation succeeds with an empty header log and deallocating
any pointer of that state finds no header. -/
theorem c10_exact_fit_headerless_witness :
    ∃ nodes', fl_alloc 0 ⟨.FindFirst, true, [⟨0, 32⟩], []⟩ 16 8 =
        some (0 + 16, ⟨.FindFirst, true, nodes', []⟩) ∧
      ∀ ptr, ([] : List (Nat × AllocationHeader)).lookup
          (ptr - allocationHeaderSize) = none →
        fl_dealloc ⟨.FindFirst, true, nodes', []⟩ ptr = none :=
  c10_exact_fit_headerless 0 .FindFirst ⟨0, 32⟩ [] [] 16 8 ⟨0, 32⟩ none 16
    (by decide) (by decide)

end RsAlloc
